import Mathlib

/-!
Verification of the EnderAI-frontend data-contract layer.

JavaScript strings are modelled as lists of characters (`JStr`), so that
every operation taken from the source is a structurally recursive, fully
executable Lean function.  Each section embeds one part of the source
(`src/api/tasks.ts`, `src/api/library.ts`, `src/components/Tasks/TasksPage.tsx`,
`src/components/Library/LibraryList.tsx` and the unnamed newer variant of the
library list) and proves the stated properties about it.  Backend store
operations that the frontend only calls (library listing and the supersession
protocol) are modelled from the specification and marked as such.
-/

/-- A JavaScript string, modelled as its sequence of characters. -/
abbrev JStr := List Char

/-- Membership of a character in the JavaScript regular-expression class
backslash-s (whitespace), as used by the replace and trim operations in the
source. -/
def jsWs (c : Char) : Bool :=
  c = ' ' || c = '\t' || c = '\n' || c = '\r' ||
  c = '\x0b' || c = '\x0c' || c = '\u00A0' || c = '\u1680' ||
  (0x2000 ≤ c.toNat && c.toNat ≤ 0x200A) ||
  c = '\u2028' || c = '\u2029' || c = '\u202F' || c = '\u205F' ||
  c = '\u3000' || c = '\uFEFF'

/-- Drop leading whitespace, as the start half of JavaScript trim. -/
def jsTrimStart (s : JStr) : JStr := s.dropWhile jsWs

/-- Drop trailing whitespace: the JavaScript trimEnd operation. -/
def jsTrimEnd (s : JStr) : JStr := (s.reverse.dropWhile jsWs).reverse

/-- The JavaScript trim operation: drop whitespace from both ends. -/
def jsTrim (s : JStr) : JStr := jsTrimEnd (jsTrimStart s)

/-- Split a string on a one-character separator, with the semantics of
JavaScript split: the empty string yields one empty token, and consecutive
separators yield empty tokens. -/
def jsSplitOn (sep : Char) : JStr → List JStr
  | [] => [[]]
  | c :: rest =>
    if c = sep then [] :: jsSplitOn sep rest
    else
      match jsSplitOn sep rest with
      | [] => [[c]]
      | l :: ls => (c :: l) :: ls

/-- Join a list of strings with a separator, with the semantics of
JavaScript join. -/
def joinWith (sep : JStr) : List JStr → JStr
  | [] => []
  | [l] => l
  | l :: ls => l ++ sep ++ joinWith sep ls

/-- The JavaScript expression part.charAt(0).toUpperCase() + part.slice(1)
from humanizeWorkflowKey in TasksPage.tsx. -/
def jsCapitalize (part : JStr) : JStr :=
  match part with
  | [] => []
  | c :: cs => c.toUpper :: cs

/-- Lowercase a string character by character, as the ASCII fragment of
JavaScript toLowerCase. -/
def toLowerStr (s : JStr) : JStr := s.map Char.toLower

/-- The per-token branch of humanizeWorkflowKey in TasksPage.tsx (identical in
the unnamed library-list variant): lowercase the token, substitute the acronym
table on the lowercased form, otherwise capitalize the original token. -/
def humanizeToken (part : JStr) : JStr :=
  let lower := toLowerStr part
  if lower = ['g', 'i', 't', 'h', 'u', 'b'] then ['G', 'i', 't', 'H', 'u', 'b']
  else if lower = ['a', 'p', 'i'] then ['A', 'P', 'I']
  else if lower = ['d', 'b'] then ['D', 'B']
  else jsCapitalize part

/-- humanizeWorkflowKey from TasksPage.tsx: split on underscore, drop empty
tokens (the filter(Boolean) step), transform each token, join with spaces. -/
def humanizeWorkflowKey (key : JStr) : JStr :=
  joinWith [' '] (((jsSplitOn '_' key).filter (fun p => !p.isEmpty)).map humanizeToken)

/-- The bucket-name formula exactly as the claim words it: split the key on
underscore, capitalize each token, substitute the acronym table on the literal
tokens github, api, db, and join the tokens with a single space.  There is no
empty-token filter and no case folding before the table lookup. -/
def bucketNameClaim (key : JStr) : JStr :=
  joinWith [' ']
    ((jsSplitOn '_' key).map (fun part =>
      if part = ['g', 'i', 't', 'h', 'u', 'b'] then ['G', 'i', 't', 'H', 'u', 'b']
      else if part = ['a', 'p', 'i'] then ['A', 'P', 'I']
      else if part = ['d', 'b'] then ['D', 'B']
      else jsCapitalize part))

/-- The per-token transformation of the amended claim: the acronym table is
applied to the lowercased token, everything else is capitalized. -/
def amendedToken (part : JStr) : JStr :=
  if toLowerStr part = ['d', 'b'] then ['D', 'B']
  else if toLowerStr part = ['a', 'p', 'i'] then ['A', 'P', 'I']
  else if toLowerStr part = ['g', 'i', 't', 'h', 'u', 'b'] then ['G', 'i', 't', 'H', 'u', 'b']
  else jsCapitalize part

/-- The bucket-name formula of the amended claim: split on underscore, discard
empty tokens, apply the case-insensitive acronym table or capitalize, and join
with single spaces. -/
def bucketNameAmended (key : JStr) : JStr :=
  joinWith [' ']
    ((jsSplitOn '_' key).filterMap (fun p =>
      if p.isEmpty then none else some (amendedToken p)))

theorem humanizeToken_eq_amendedToken (part : JStr) :
    humanizeToken part = amendedToken part := by
  unfold humanizeToken amendedToken
  split_ifs <;> simp_all

theorem humanize_pipeline_eq (ps : List JStr) :
    (ps.filter (fun p => !p.isEmpty)).map humanizeToken =
      ps.filterMap (fun p => if p.isEmpty then none else some (amendedToken p)) := by
  induction ps with
  | nil => rfl
  | cons p ps ih =>
    by_cases hp : p = [] <;>
      simp [List.filter_cons, List.filterMap_cons, hp, ih,
        humanizeToken_eq_amendedToken, List.isEmpty_iff]

/-- C2 counterexample: on the key _Db the code-derived bucket name is DB, while
the formula exactly as the claim words it yields a leading space and the token
Db, because the code drops empty tokens and matches the acronym table
case-insensitively while the claimed formula does neither. -/
theorem c2_counterexample :
    humanizeWorkflowKey ['_', 'D', 'b'] ≠ bucketNameClaim ['_', 'D', 'b'] := by
  decide

/-- C2 (amended): for every workflow_key string, the derived bucket_name equals
the result of splitting the key on underscore, discarding empty tokens,
substituting the acronym table case-insensitively on the lowercased token
(github to GitHub, api to API, db to DB), capitalizing every other token, and
joining the kept tokens with single spaces. -/
theorem c2_bucket_name_amended (key : JStr) :
    humanizeWorkflowKey key = bucketNameAmended key := by
  unfold humanizeWorkflowKey bucketNameAmended
  rw [humanize_pipeline_eq]

/-- The outcome of the commitRename handler in TasksPage.tsx: reject the
draft, silently cancel, or issue an update mutation with the given title. -/
inductive RenameAction where
  | validationError
  | cancel
  | update (title : JStr)
deriving DecidableEq

/-- commitRename from TasksPage.tsx: trim the draft; an empty result reports a
validation error, a result equal to the trimmed current title cancels the
edit, anything else issues the rename mutation with the trimmed title. -/
def commitRename (titleDraft taskTitle : JStr) : RenameAction :=
  let next := jsTrim titleDraft
  if next = [] then .validationError
  else if next = jsTrim taskTitle then .cancel
  else .update next

/-- Whether a rename outcome issues an update request. -/
def issuesUpdate : RenameAction → Bool
  | .update _ => true
  | _ => false

/-- The stored title after a rename attempt together with the action taken:
only a successful update mutation replaces the stored title. -/
def renameResult (storedTitle titleDraft : JStr) : JStr × RenameAction :=
  match commitRename titleDraft storedTitle with
  | .update t => (t, .update t)
  | a => (storedTitle, a)

/-- C3: a rename whose draft trims to empty reports ValidationError and leaves
the stored title unchanged with no update issued, and a rename whose trimmed
draft is non-empty and differs from the trimmed current title updates the
stored title to the trimmed draft. -/
theorem c3_rename_validation (storedTitle titleDraft : JStr) :
    (jsTrim titleDraft = [] →
      renameResult storedTitle titleDraft = (storedTitle, .validationError)) ∧
    (jsTrim titleDraft ≠ [] → jsTrim titleDraft ≠ jsTrim storedTitle →
      renameResult storedTitle titleDraft =
        (jsTrim titleDraft, .update (jsTrim titleDraft))) := by
  constructor
  · intro h
    simp [renameResult, commitRename, h]
  · intro h₁ h₂
    simp [renameResult, commitRename, h₁, h₂]

/-- C3 witness: an all-whitespace draft is rejected and leaves the title A, a
draft trimming to B replaces the title A by B. -/
theorem c3_witness :
    renameResult ['A'] [' ', ' '] = (['A'], .validationError) ∧
    renameResult ['A'] [' ', 'B', ' '] = (['B'], .update ['B']) :=
  ⟨(c3_rename_validation ['A'] [' ', ' ']).1 (by decide),
   (c3_rename_validation ['A'] [' ', 'B', ' ']).2 (by decide) (by decide)⟩

/-- C7: renaming to a draft whose trimmed value equals the trimmed current
title issues no update request and leaves the stored title unchanged. -/
theorem c7_rename_idempotent (storedTitle titleDraft : JStr)
    (h : jsTrim titleDraft = jsTrim storedTitle) :
    issuesUpdate (commitRename titleDraft storedTitle) = false ∧
    (renameResult storedTitle titleDraft).1 = storedTitle := by
  by_cases he : jsTrim storedTitle = [] <;>
    simp [renameResult, commitRename, issuesUpdate, h, he]

/-- C7 witness: renaming the stored title with a leading space to the same
word with a trailing space is a no-op. -/
theorem c7_witness :
    issuesUpdate (commitRename ['A', ' '] [' ', 'A']) = false ∧
    (renameResult [' ', 'A'] ['A', ' ']).1 = [' ', 'A'] :=
  c7_rename_idempotent [' ', 'A'] ['A', ' '] (by decide)

/-- The error branch of the LibraryList component (both variants render the
same markup): a fixed headline followed by the message of the caught error. -/
def libraryErrorView (message : String) : List String :=
  ["Couldn\u2019t load Library", message]

/-- The error branch of the TasksPage component: fixed text only. -/
def tasksErrorView (_ : String) : List String :=
  ["Couldn\u2019t load Tasks",
   "Check backend connectivity/auth and that memory tables exist."]

/-- The error branch of the runs section of TaskDialog: fixed text only. -/
def runsErrorView (_ : String) : List String :=
  ["Couldn\u2019t load Runs", "Check backend connectivity and auth."]

/-- The error branch of RunDetailDialog: fixed text only. -/
def runDetailErrorView (_ : String) : List String :=
  ["Couldn\u2019t load Run detail", "Check backend connectivity and auth."]

/-- The rename onError handler of TaskDialog: fixed text only. -/
def renameErrorText (_ : String) : List String :=
  ["Couldn\u2019t rename task. Check backend connectivity/auth."]

/-- C6 counterexample: the library list error view renders different
user-visible text for two errors with different internal messages, and the
internal message itself appears in the rendered output. -/
theorem c6_counterexample :
    libraryErrorView "db timeout at host-a" ≠ libraryErrorView "row not found" ∧
    "db timeout at host-a" ∈ libraryErrorView "db timeout at host-a" := by
  constructor
  · decide
  · simp [libraryErrorView]

/-- C6 (amended): the tasks, runs, run-detail and rename error surfaces render
fixed generic text independent of the error, but the library list error view
renders the fixed headline followed by the internal message of the error, so
it does expose internal detail and distinguishes errors. -/
theorem c6_error_views_amended :
    (∀ m₁ m₂ : String, tasksErrorView m₁ = tasksErrorView m₂) ∧
    (∀ m₁ m₂ : String, runsErrorView m₁ = runsErrorView m₂) ∧
    (∀ m₁ m₂ : String, runDetailErrorView m₁ = runDetailErrorView m₂) ∧
    (∀ m₁ m₂ : String, renameErrorText m₁ = renameErrorText m₂) ∧
    (∀ m : String, libraryErrorView m = ["Couldn\u2019t load Library", m]) :=
  ⟨fun _ _ => rfl, fun _ _ => rfl, fun _ _ => rfl, fun _ _ => rfl, fun _ => rfl⟩

/-- The closed vocabulary of library item kinds from src/api/library.ts. -/
inductive LibraryItemKind where
  | recipe
  | pitfall
  | decision
  | checklist
deriving DecidableEq

/-- Caller-side parameters of readTasks in src/api/tasks.ts. -/
structure ReadTasksParams where
  workflow_key : Option JStr
  status : Option JStr
  q : Option JStr
  skip : Option Nat
  limit : Option Nat
deriving DecidableEq

/-- The query object readTasks sends: the result of normalizing the caller
parameters. -/
structure TasksQuery where
  workflow_key : Option JStr
  status : Option JStr
  q : Option JStr
  skip : Option Nat
  limit : Option Nat
deriving DecidableEq

/-- The expression params.field?.trim() || undefined from readTasks and
readLibraryItems: trim the filter and drop it entirely when the trimmed value
is empty. -/
def normalizeFilter (v : Option JStr) : Option JStr :=
  match v with
  | none => none
  | some s =>
    let t := jsTrim s
    if t = [] then none else some t

/-- readTasks from src/api/tasks.ts, reduced to the query it sends:
workflow_key, status and q are normalized, skip and limit pass through. -/
def buildTasksQuery (p : ReadTasksParams) : TasksQuery :=
  { workflow_key := normalizeFilter p.workflow_key
    status := normalizeFilter p.status
    q := normalizeFilter p.q
    skip := p.skip
    limit := p.limit }

/-- Caller-side parameters of readLibraryItems in src/api/library.ts. -/
structure ReadLibraryItemsParams where
  workflow_key : Option JStr
  kind : Option LibraryItemKind
  q : Option JStr
  current_only : Option Bool
  skip : Option Nat
  limit : Option Nat
deriving DecidableEq

/-- The query object readLibraryItems sends. -/
structure LibraryQuery where
  workflow_key : Option JStr
  kind : Option LibraryItemKind
  q : Option JStr
  current_only : Option Bool
  skip : Option Nat
  limit : Option Nat
deriving DecidableEq

/-- readLibraryItems from src/api/library.ts, reduced to the query it sends:
workflow_key and q are normalized, the rest passes through. -/
def buildLibraryQuery (p : ReadLibraryItemsParams) : LibraryQuery :=
  { workflow_key := normalizeFilter p.workflow_key
    kind := p.kind
    q := normalizeFilter p.q
    current_only := p.current_only
    skip := p.skip
    limit := p.limit }

/-- C8: the workflow_key, status and q filters of readTasks and the
workflow_key and q filters of readLibraryItems are trimmed before being sent,
and a filter that is empty after trimming produces exactly the request that
omitting the filter produces. -/
theorem c8_filters_whitespace_insensitive :
    (∀ (p : ReadTasksParams) (s : JStr), jsTrim s = [] →
      buildTasksQuery { p with workflow_key := some s } =
        buildTasksQuery { p with workflow_key := none }) ∧
    (∀ (p : ReadTasksParams) (s : JStr), jsTrim s = [] →
      buildTasksQuery { p with status := some s } =
        buildTasksQuery { p with status := none }) ∧
    (∀ (p : ReadTasksParams) (s : JStr), jsTrim s = [] →
      buildTasksQuery { p with q := some s } =
        buildTasksQuery { p with q := none }) ∧
    (∀ (p : ReadLibraryItemsParams) (s : JStr), jsTrim s = [] →
      buildLibraryQuery { p with workflow_key := some s } =
        buildLibraryQuery { p with workflow_key := none }) ∧
    (∀ (p : ReadLibraryItemsParams) (s : JStr), jsTrim s = [] →
      buildLibraryQuery { p with q := some s } =
        buildLibraryQuery { p with q := none }) ∧
    (∀ (p : ReadTasksParams) (s : JStr), jsTrim s ≠ [] →
      (buildTasksQuery { p with workflow_key := some s }).workflow_key =
        some (jsTrim s) ∧
      (buildTasksQuery { p with status := some s }).status = some (jsTrim s) ∧
      (buildTasksQuery { p with q := some s }).q = some (jsTrim s)) ∧
    (∀ (p : ReadLibraryItemsParams) (s : JStr), jsTrim s ≠ [] →
      (buildLibraryQuery { p with workflow_key := some s }).workflow_key =
        some (jsTrim s) ∧
      (buildLibraryQuery { p with q := some s }).q = some (jsTrim s)) := by
  refine ⟨?_, ?_, ?_, ?_, ?_, ?_, ?_⟩ <;> intro p s h <;>
    simp [buildTasksQuery, buildLibraryQuery, normalizeFilter, h]

/-- C8 witness: a whitespace-only workflow_key filter on readTasks produces
the same query as no filter, and a padded q filter on readLibraryItems is sent
trimmed. -/
theorem c8_witness :
    buildTasksQuery ⟨some [' ', '\t'], none, none, none, none⟩ =
      buildTasksQuery ⟨none, none, none, none, none⟩ ∧
    (buildLibraryQuery ⟨none, none, some [' ', 'x', ' '], none, none, none⟩).q =
      some ['x'] :=
  ⟨c8_filters_whitespace_insensitive.1 ⟨none, none, none, none, none⟩
      [' ', '\t'] (by decide),
   ((c8_filters_whitespace_insensitive.2.2.2.2.2.2
      ⟨none, none, none, none, none, none⟩ [' ', 'x', ' '] (by decide)).2)⟩

/-- The closed relation vocabulary between Runs and LibraryItems, from
src/api/tasks.ts. -/
inductive RunLibraryRelation where
  | used
  | created
  | promoted
  | superseded
deriving DecidableEq

/-- One memory link of a run detail, as consumed by RunDetailDialog: the
relation and the linked library item (identified here by its id). -/
structure RunMemoryLink where
  relation : RunLibraryRelation
  library_item_id : Nat
deriving DecidableEq

/-- The four relation groups built by the grouped memo of RunDetailDialog. -/
structure RelationGroups where
  used : List RunMemoryLink
  created : List RunMemoryLink
  promoted : List RunMemoryLink
  superseded : List RunMemoryLink
deriving DecidableEq

/-- One step of the grouping loop: push the link onto the group named by its
relation, at the end, as groups[link.relation].push(link) does. -/
def pushLink (g : RelationGroups) (l : RunMemoryLink) : RelationGroups :=
  match l.relation with
  | .used => { g with used := g.used ++ [l] }
  | .created => { g with created := g.created ++ [l] }
  | .promoted => { g with promoted := g.promoted ++ [l] }
  | .superseded => { g with superseded := g.superseded ++ [l] }

/-- The grouped memo of RunDetailDialog: fold the memory links of the run
detail over four initially empty groups. -/
def groupMemoryLinks (links : List RunMemoryLink) : RelationGroups :=
  links.foldl pushLink ⟨[], [], [], []⟩

theorem groupMemoryLinks_go (links : List RunMemoryLink) (g : RelationGroups) :
    links.foldl pushLink g =
      ⟨g.used ++ links.filter (fun l => l.relation = .used),
       g.created ++ links.filter (fun l => l.relation = .created),
       g.promoted ++ links.filter (fun l => l.relation = .promoted),
       g.superseded ++ links.filter (fun l => l.relation = .superseded)⟩ := by
  induction links generalizing g with
  | nil => simp
  | cons l links ih =>
    rw [List.foldl_cons, ih]
    cases hrel : l.relation <;>
      simp [pushLink, hrel, List.filter_cons]

/-- C4: the grouped memory links of a run detail are exactly the four
relation groups, each group listing, in input order, precisely the links
whose relation names that group; in particular every link lands in exactly
one group, exactly once, and the group sizes add up to the number of links. -/
theorem c4_links_grouped_by_relation (links : List RunMemoryLink) :
    (groupMemoryLinks links).used =
        links.filter (fun l => l.relation = .used) ∧
    (groupMemoryLinks links).created =
        links.filter (fun l => l.relation = .created) ∧
    (groupMemoryLinks links).promoted =
        links.filter (fun l => l.relation = .promoted) ∧
    (groupMemoryLinks links).superseded =
        links.filter (fun l => l.relation = .superseded) ∧
    (groupMemoryLinks links).used.length +
        (groupMemoryLinks links).created.length +
        (groupMemoryLinks links).promoted.length +
        (groupMemoryLinks links).superseded.length = links.length := by
  have hpart :
      (links.filter (fun l => l.relation = .used)).length +
        (links.filter (fun l => l.relation = .created)).length +
        (links.filter (fun l => l.relation = .promoted)).length +
        (links.filter (fun l => l.relation = .superseded)).length =
          links.length := by
    induction links with
    | nil => rfl
    | cons l links ih =>
      cases hrel : l.relation <;> simp [List.filter_cons, hrel] <;> omega
  have h := groupMemoryLinks_go links ⟨[], [], [], []⟩
  refine ⟨?_, ?_, ?_, ?_, ?_⟩ <;>
    simp only [groupMemoryLinks, h, List.nil_append]
  exact hpart

/-- The task record of src/api/tasks.ts, restricted to the fields the tasks
page reads; nullable string fields are options over JStr, so the null and
empty-string cases stay distinct. -/
structure TaskPublic where
  id : Nat
  title : JStr
  workflow_key : JStr
  status : JStr
  created_at : Option JStr
  last_touched_at : Option JStr
deriving DecidableEq

/-- JavaScript truthiness of a nullable string: null and the empty string are
falsy. -/
def truthyStr : Option JStr → Bool
  | none => false
  | some s => !s.isEmpty

/-- The expression task.last_touched_at || task.created_at from the score
helper of visibleTasks in TasksPage.tsx. -/
def rawRecency (t : TaskPublic) : Option JStr :=
  if truthyStr t.last_touched_at then t.last_touched_at else t.created_at

/-- The score helper of visibleTasks: 0 for a falsy raw value, otherwise the
parsed epoch time with unparsable dates (NaN) scored 0.  Date parsing is an
external collaborator, passed in as a function returning none on NaN. -/
def taskScore (parse : JStr → Option Int) (t : TaskPublic) : Int :=
  match rawRecency t with
  | none => 0
  | some s => if s.isEmpty then 0 else (parse s).getD 0

/-- The sort comparator of visibleTasks, as a boolean order: a precedes b when
a has the larger score, or on equal scores when the title of a is
lexicographically at most the title of b (the localeCompare tie-break). -/
def tasksLe (parse : JStr → Option Int) (a b : TaskPublic) : Bool :=
  decide (taskScore parse b < taskScore parse a) ||
  (decide (taskScore parse a = taskScore parse b) && decide (a.title ≤ b.title))

/-- visibleTasks from TasksPage.tsx: keep every task when the selected
workflow key is all, otherwise keep the tasks with the selected key, then sort
by the recency comparator (a stable sort, as required of Array sort). -/
def visibleTasks (parse : JStr → Option Int) (workflowKey : JStr)
    (tasks : List TaskPublic) : List TaskPublic :=
  let filtered :=
    if workflowKey = ['a', 'l', 'l'] then tasks
    else tasks.filter (fun t => t.workflow_key = workflowKey)
  filtered.mergeSort (tasksLe parse)

theorem tasksLe_trans (parse : JStr → Option Int) :
    ∀ a b c, tasksLe parse a b = true → tasksLe parse b c = true →
      tasksLe parse a c = true := by
  intro a b c
  simp only [tasksLe, Bool.or_eq_true, Bool.and_eq_true, decide_eq_true_eq]
  rintro (h₁ | ⟨h₁, h₂⟩) (h₃ | ⟨h₃, h₄⟩)
  · exact Or.inl (by omega)
  · exact Or.inl (by omega)
  · exact Or.inl (by omega)
  · exact Or.inr ⟨by omega, le_trans h₂ h₄⟩

theorem tasksLe_total (parse : JStr → Option Int) :
    ∀ a b, (tasksLe parse a b || tasksLe parse b a) = true := by
  intro a b
  simp only [tasksLe, Bool.or_eq_true, Bool.and_eq_true, decide_eq_true_eq]
  rcases lt_trichotomy (taskScore parse a) (taskScore parse b) with h | h | h
  · exact Or.inr (Or.inl h)
  · rcases le_total a.title b.title with ht | ht
    · exact Or.inl (Or.inr ⟨h, ht⟩)
    · exact Or.inr (Or.inr ⟨h.symm, ht⟩)
  · exact Or.inl (Or.inl h)

/-- C9: the visible task list is a permutation of exactly the tasks whose
workflow_key equals the selected key (all tasks when the selection is all), it
is ordered by score descending with ties broken by ascending title, and a task
is displayed iff it is a fetched task matching the selection. -/
theorem c9_visible_tasks_filtered_sorted (parse : JStr → Option Int)
    (workflowKey : JStr) (tasks : List TaskPublic) :
    (visibleTasks parse workflowKey tasks).Perm
        (if workflowKey = ['a', 'l', 'l'] then tasks
         else tasks.filter (fun t => t.workflow_key = workflowKey)) ∧
    (visibleTasks parse workflowKey tasks).Pairwise
        (fun a b => tasksLe parse a b = true) ∧
    (∀ x, x ∈ visibleTasks parse workflowKey tasks ↔
        x ∈ tasks ∧
          (workflowKey = ['a', 'l', 'l'] ∨ x.workflow_key = workflowKey)) := by
  refine ⟨?_, ?_, ?_⟩
  · simp only [visibleTasks]
    exact List.mergeSort_perm _ _
  · simp only [visibleTasks]
    exact List.sorted_mergeSort (tasksLe_trans parse) (tasksLe_total parse) _
  · intro x
    by_cases hw : workflowKey = ['a', 'l', 'l'] <;>
      simp [visibleTasks, hw,
        (List.mergeSort_perm _ (tasksLe parse)).mem_iff, List.mem_filter]

/-- The loop behind replace of the regular expression backslash-s-plus by a
single space: scan left to right, emitting one space per maximal whitespace
run. -/
def collapseWsGo (prevWs : Bool) : JStr → JStr
  | [] => []
  | c :: cs =>
    if jsWs c then
      if prevWs then collapseWsGo true cs
      else ' ' :: collapseWsGo true cs
    else c :: collapseWsGo false cs

/-- body.replace of every whitespace run by a single space, from both
BodyPreview variants. -/
def collapseWs (s : JStr) : JStr := collapseWsGo false s

/-- BodyPreview from LibraryList.tsx (older variant): collapse whitespace,
trim, return unchanged up to 220 characters, else truncate to 220 characters
and append one ellipsis character. -/
def bodyPreviewList (body : JStr) : JStr :=
  let normalized := jsTrim (collapseWs body)
  if normalized.length ≤ 220 then normalized
  else normalized.take 220 ++ ['…']

/-- The replace of carriage-return line-feed pairs by line feeds from
normalizeBodyMdc in the unnamed newer library list. -/
def replaceCrlf : JStr → JStr
  | '\r' :: '\n' :: rest => '\n' :: replaceCrlf rest
  | c :: rest => c :: replaceCrlf rest
  | [] => []

/-- The replace of the four literal characters backslash r backslash n by a
line feed from normalizeBodyMdc. -/
def replaceEscRN : JStr → JStr
  | '\\' :: 'r' :: '\\' :: 'n' :: rest => '\n' :: replaceEscRN rest
  | c :: rest => c :: replaceEscRN rest
  | [] => []

/-- The replace of the two literal characters backslash n by a line feed from
normalizeBodyMdc. -/
def replaceEscN : JStr → JStr
  | '\\' :: 'n' :: rest => '\n' :: replaceEscN rest
  | c :: rest => c :: replaceEscN rest
  | [] => []

/-- normalizeBodyMdc from the unnamed newer library list (and TasksPage.tsx):
the three replaces applied in source order. -/
def normalizeBodyMdc (body : JStr) : JStr :=
  replaceEscN (replaceEscRN (replaceCrlf body))

/-- A line whose trim is empty, as tested by the shift loops of
dropLeadingHeading. -/
def isBlankLine (l : JStr) : Bool := (jsTrim l).isEmpty

/-- The test of the regular expression caret hash-plus backslash-backslash-s
from dropLeadingHeading: one or more hash marks followed by the two literal
characters backslash and s (the doubled backslash makes the pattern match a
literal backslash, not whitespace). -/
def headingRegexTest (l : JStr) : Bool :=
  !(l.takeWhile (fun c => c = '#')).isEmpty &&
  decide ((l.dropWhile (fun c => c = '#')).take 2 = ['\\', 's'])

/-- dropLeadingHeading from the unnamed newer library list: normalize the
body, split into lines, drop leading blank lines, drop a leading heading line
(per the regular expression above) and the blank lines after it, and join the
lines back with line feeds. -/
def dropLeadingHeading (body : JStr) : JStr :=
  let lines := jsSplitOn '\n' (normalizeBodyMdc body)
  let lines := lines.dropWhile isBlankLine
  let lines :=
    match lines with
    | [] => []
    | first :: rest =>
      if headingRegexTest first then rest.dropWhile isBlankLine
      else first :: rest
  joinWith ['\n'] lines

/-- BodyPreview from the unnamed newer library list: drop a leading heading,
collapse whitespace, trim, return unchanged up to 220 characters, else
truncate to 220 characters, right-trim and append one ellipsis character. -/
def bodyPreviewNew (body : JStr) : JStr :=
  let normalized := jsTrim (collapseWs (dropLeadingHeading body))
  if normalized.length ≤ 220 then normalized
  else jsTrimEnd (normalized.take 220) ++ ['…']

/-- The preview formula exactly as the claim words it for the older variant:
collapse whitespace runs to single spaces, trim, keep up to 220 characters,
else truncate to 220 and append an ellipsis. -/
def previewClaimOld (body : JStr) : JStr :=
  let normalized := jsTrim (collapseWs body)
  if normalized.length ≤ 220 then normalized
  else normalized.take 220 ++ ['…']

/-- The preview formula exactly as the claim words it for the newer variant:
collapse whitespace runs to single spaces, trim, keep up to 220 characters,
else truncate to 220, right-trim and append an ellipsis.  The claim mentions
no preprocessing before the whitespace collapse. -/
def previewClaimNew (body : JStr) : JStr :=
  let normalized := jsTrim (collapseWs body)
  if normalized.length ≤ 220 then normalized
  else jsTrimEnd (normalized.take 220) ++ ['…']

theorem dropWhile_length_le (p : Char → Bool) (l : JStr) :
    (l.dropWhile p).length ≤ l.length := by
  induction l with
  | nil => simp
  | cons c cs ih =>
    by_cases h : p c <;> simp [List.dropWhile_cons, h] <;> omega

theorem jsTrimEnd_length_le (s : JStr) : (jsTrimEnd s).length ≤ s.length := by
  simp only [jsTrimEnd, List.length_reverse]
  simpa using dropWhile_length_le jsWs s.reverse

/-- C10 counterexample: on the body consisting of the four characters
a backslash n b, the newer BodyPreview renders a space between a and b,
because normalizeBodyMdc first rewrites the literal backslash-n escape into a
line feed, while the formula exactly as the claim words it leaves the four
characters untouched. -/
theorem c10_counterexample :
    bodyPreviewNew ['a', '\\', 'n', 'b'] ≠
      previewClaimNew ['a', '\\', 'n', 'b'] := by
  decide

/-- C10 (amended): the older BodyPreview computes exactly the claimed
collapse-trim-truncate formula; the newer BodyPreview first rewrites escape
sequences and drops a leading heading via dropLeadingHeading and applies the
claimed right-trimming formula to that preprocessed body; both previews never
exceed 221 characters. -/
theorem c10_preview_amended (body : JStr) :
    bodyPreviewList body = previewClaimOld body ∧
    bodyPreviewNew body = previewClaimNew (dropLeadingHeading body) ∧
    (bodyPreviewList body).length ≤ 221 ∧
    (bodyPreviewNew body).length ≤ 221 := by
  refine ⟨rfl, rfl, ?_, ?_⟩
  · by_cases h : (jsTrim (collapseWs body)).length ≤ 220 <;>
      simp [bodyPreviewList, h, List.length_take] <;> omega
  · by_cases h :
        (jsTrim (collapseWs (dropLeadingHeading body))).length ≤ 220
    · simp [bodyPreviewNew, h]
      omega
    · have hte := jsTrimEnd_length_le
        ((jsTrim (collapseWs (dropLeadingHeading body))).take 220)
      simp only [bodyPreviewNew, h, if_false, List.length_append,
        List.length_take, List.length_cons, List.length_nil] at hte ⊢
      have : ((jsTrim (collapseWs (dropLeadingHeading body))).take 220).length
          ≤ 220 := by
        simp [List.length_take]
      omega

/-- Modelled from the spec: the LibraryItem record of the Library Store, which
is not part of this frontend-only repository; the frontend sees it only
through the LibraryItemPublic contract of src/api/library.ts.  Restricted to
the fields the claims touch; superseded_by_id is the forward version
pointer. -/
structure LibraryItem where
  id : Nat
  workflow_key : JStr
  kind : LibraryItemKind
  title : JStr
  body_mdc : JStr
  superseded_by_id : Option Nat
deriving DecidableEq

/-- Modelled from the spec: the caller-supplied content fields of a new
library item. -/
structure LibraryItemFields where
  workflow_key : JStr
  kind : LibraryItemKind
  title : JStr
  body_mdc : JStr
deriving DecidableEq

/-- Modelled from the spec: the store generates fresh ids; one more than the
largest id present is fresh. -/
def nextId (s : List LibraryItem) : Nat :=
  (s.foldl (fun m it => max m it.id) 0) + 1

/-- Look an item up by id. -/
def findItem (s : List LibraryItem) (i : Nat) : Option LibraryItem :=
  s.find? (fun it => it.id == i)

/-- Modelled from the spec: create(fields) appends a new item with a fresh id
and a null superseded_by_id. -/
def createItem (s : List LibraryItem) (f : LibraryItemFields) :
    List LibraryItem :=
  s ++ [⟨nextId s, f.workflow_key, f.kind, f.title, f.body_mdc, none⟩]

/-- Modelled from the spec: the error taxonomy of the supersede operation. -/
inductive LibStoreError where
  | notFound
  | conflict
deriving DecidableEq

/-- Modelled from the spec: supersede(old_id, new_fields) atomically verifies
that the old item exists and still has a null superseded_by_id, creates the
new item with a fresh id, and points the old item at it; a missing old item
fails with NotFound and a non-null pointer fails with ConflictError, never
overwriting. -/
def supersedeItem (s : List LibraryItem) (oldId : Nat)
    (f : LibraryItemFields) : Except LibStoreError (List LibraryItem) :=
  match findItem s oldId with
  | none => .error .notFound
  | some old =>
    match old.superseded_by_id with
    | some _ => .error .conflict
    | none =>
      let newId := nextId s
      .ok ((s.map (fun it =>
          if it.id = oldId then { it with superseded_by_id := some newId }
          else it)) ++
        [⟨newId, f.workflow_key, f.kind, f.title, f.body_mdc, none⟩])

/-- The write operations of the Library Store that touch supersede chains. -/
inductive LibOp where
  | create (f : LibraryItemFields)
  | supersede (oldId : Nat) (f : LibraryItemFields)
deriving DecidableEq

/-- Apply one operation; a failed supersede leaves the store unchanged (the
transaction rolls back). -/
def applyOp (s : List LibraryItem) : LibOp → List LibraryItem
  | .create f => createItem s f
  | .supersede oldId f =>
    match supersedeItem s oldId f with
    | .ok s₂ => s₂
    | .error _ => s

/-- The store reached from the empty store by a sequence of operations. -/
def applyOps (ops : List LibOp) : List LibraryItem :=
  ops.foldl applyOp []

/-- Walk the forward superseded_by_id pointers with the given fuel, returning
the chain end when the walk terminates inside the fuel. -/
def walkChain (s : List LibraryItem) : Nat → LibraryItem → Option LibraryItem
  | 0, _ => none
  | fuel + 1, x =>
    match x.superseded_by_id with
    | none => some x
    | some t =>
      match findItem s t with
      | none => none
      | some y => walkChain s fuel y

/-- The current head of the chain of an item: walk the forward pointers; a
fuel of nextId s is enough because ids strictly increase along pointers. -/
def chainHead (s : List LibraryItem) (x : LibraryItem) : Option LibraryItem :=
  walkChain s (nextId s) x

/-- The store invariant behind chain-head uniqueness: every forward pointer
targets an existing item with a strictly larger id. -/
def PtrOk (s : List LibraryItem) : Prop :=
  ∀ x ∈ s, ∀ t, x.superseded_by_id = some t → x.id < t ∧ ∃ y ∈ s, y.id = t

theorem foldl_max_le_init (s : List LibraryItem) (a : Nat) :
    a ≤ s.foldl (fun m it => max m it.id) a := by
  induction s generalizing a with
  | nil => simp
  | cons hd tl ih => exact le_trans (le_max_left a hd.id) (ih (max a hd.id))

theorem mem_le_foldl_max (s : List LibraryItem) (a : Nat) (x : LibraryItem)
    (hx : x ∈ s) : x.id ≤ s.foldl (fun m it => max m it.id) a := by
  induction s generalizing a with
  | nil => cases hx
  | cons hd tl ih =>
    rcases List.mem_cons.mp hx with rfl | hmem
    · exact le_trans (le_max_right a x.id) (foldl_max_le_init tl (max a x.id))
    · exact ih (max a hd.id) hmem

theorem mem_id_lt_nextId (s : List LibraryItem) (x : LibraryItem)
    (hx : x ∈ s) : x.id < nextId s :=
  Nat.lt_succ_of_le (mem_le_foldl_max s 0 x hx)

theorem ptrOk_nil : PtrOk [] := by
  intro x hx
  cases hx

theorem ptrOk_createItem (s : List LibraryItem) (f : LibraryItemFields)
    (h : PtrOk s) : PtrOk (createItem s f) := by
  intro x hx t ht
  rcases List.mem_append.mp hx with hxs | hxnew
  · obtain ⟨hlt, y, hy, hyid⟩ := h x hxs t ht
    exact ⟨hlt, y, List.mem_append.mpr (Or.inl hy), hyid⟩
  · simp only [List.mem_singleton] at hxnew
    subst hxnew
    simp at ht

theorem ptrOk_supersedeItem (s : List LibraryItem) (oldId : Nat)
    (f : LibraryItemFields) (s₂ : List LibraryItem) (h : PtrOk s)
    (hok : supersedeItem s oldId f = .ok s₂) : PtrOk s₂ := by
  unfold supersedeItem at hok
  cases hfind : findItem s oldId with
  | none => rw [hfind] at hok; dsimp only at hok; cases hok
  | some old =>
    rw [hfind] at hok
    dsimp only at hok
    cases hptr : old.superseded_by_id with
    | some u => rw [hptr] at hok; dsimp only at hok; cases hok
    | none =>
      rw [hptr] at hok
      dsimp only at hok
      injection hok with hok
      subst hok
      intro x hx t ht
      rcases List.mem_append.mp hx with hxm | hxnew
      · obtain ⟨x₀, hx₀, rfl⟩ := List.mem_map.mp hxm
        by_cases hid : x₀.id = oldId
        · simp only [hid, if_true] at ht ⊢
          injection ht with ht
          subst ht
          refine ⟨?_, ⟨nextId s, f.workflow_key, f.kind, f.title,
            f.body_mdc, none⟩, List.mem_append.mpr (Or.inr (by simp)), rfl⟩
          simpa [hid] using mem_id_lt_nextId s x₀ hx₀
        · simp only [hid, if_false] at ht
          obtain ⟨hlt, y, hy, hyid⟩ := h x₀ hx₀ t ht
          refine ⟨by simpa [hid] using hlt,
            if y.id = oldId then { y with superseded_by_id := some (nextId s) }
            else y, ?_, ?_⟩
          · exact List.mem_append.mpr (Or.inl (List.mem_map.mpr ⟨y, hy, rfl⟩))
          · split <;> exact hyid
      · simp only [List.mem_singleton] at hxnew
        subst hxnew
        simp at ht

theorem ptrOk_applyOp (s : List LibraryItem) (op : LibOp) (h : PtrOk s) :
    PtrOk (applyOp s op) := by
  cases op with
  | create f => exact ptrOk_createItem s f h
  | supersede oldId f =>
    cases hres : supersedeItem s oldId f with
    | ok s₂ =>
      simpa [applyOp, hres] using ptrOk_supersedeItem s oldId f s₂ h hres
    | error e => simpa [applyOp, hres] using h

theorem ptrOk_foldl (ops : List LibOp) :
    ∀ s, PtrOk s → PtrOk (ops.foldl applyOp s) := by
  induction ops with
  | nil => intro s h; simpa using h
  | cons op ops ih =>
    intro s h
    exact ih (applyOp s op) (ptrOk_applyOp s op h)

theorem ptrOk_applyOps (ops : List LibOp) : PtrOk (applyOps ops) :=
  ptrOk_foldl ops [] ptrOk_nil

theorem walkChain_reaches (s : List LibraryItem) (h : PtrOk s) :
    ∀ (fuel : Nat) (x : LibraryItem), x ∈ s → nextId s ≤ fuel + x.id →
      ∃ hd, walkChain s fuel x = some hd ∧ hd ∈ s ∧
        hd.superseded_by_id = none := by
  intro fuel
  induction fuel with
  | zero =>
    intro x hx hle
    have := mem_id_lt_nextId s x hx
    omega
  | succ fuel ih =>
    intro x hx hle
    cases hptr : x.superseded_by_id with
    | none => exact ⟨x, by simp [walkChain, hptr], hx, hptr⟩
    | some t =>
      obtain ⟨hlt, y, hy, hyid⟩ := h x hx t hptr
      have hsome : (findItem s t).isSome :=
        List.find?_isSome.mpr ⟨y, hy, by simp [hyid]⟩
      obtain ⟨y₂, hfind⟩ := Option.isSome_iff_exists.mp hsome
      have hy₂mem : y₂ ∈ s := List.mem_of_find?_eq_some hfind
      have hy₂id : y₂.id = t := by simpa using List.find?_some hfind
      obtain ⟨hd, hw, hmem, hnone⟩ := ih y₂ hy₂mem (by omega)
      exact ⟨hd, by simp [walkChain, hptr, hfind, hw], hmem, hnone⟩

theorem chainHead_exists (s : List LibraryItem) (h : PtrOk s)
    (x : LibraryItem) (hx : x ∈ s) :
    ∃ hd, chainHead s x = some hd ∧ hd ∈ s ∧ hd.superseded_by_id = none :=
  walkChain_reaches s h (nextId s) x hx (Nat.le_add_right _ _)

theorem chainHead_of_none (s : List LibraryItem) (x : LibraryItem)
    (hptr : x.superseded_by_id = none) : chainHead s x = some x := by
  unfold chainHead nextId
  simp [walkChain, hptr]

theorem supersedeItem_conflict_of_ptr (s : List LibraryItem) (oldId : Nat)
    (f : LibraryItemFields) (old : LibraryItem)
    (hfind : findItem s oldId = some old)
    (hptr : old.superseded_by_id ≠ none) :
    supersedeItem s oldId f = .error .conflict := by
  unfold supersedeItem
  rw [hfind]
  dsimp only
  cases hp : old.superseded_by_id with
  | none => exact absurd hp hptr
  | some u => rfl

theorem supersedeItem_after_ok (s : List LibraryItem) (oldId : Nat)
    (f g : LibraryItemFields) (s₂ : List LibraryItem)
    (hok : supersedeItem s oldId f = .ok s₂) :
    supersedeItem s₂ oldId g = .error .conflict := by
  unfold supersedeItem at hok
  cases hfind : findItem s oldId with
  | none => rw [hfind] at hok; dsimp only at hok; cases hok
  | some old =>
    rw [hfind] at hok
    dsimp only at hok
    cases hptr : old.superseded_by_id with
    | some u => rw [hptr] at hok; dsimp only at hok; cases hok
    | none =>
      rw [hptr] at hok
      dsimp only at hok
      injection hok with hok
      subst hok
      have hfind₀ : s.find? (fun it => it.id == oldId) = some old := hfind
      have holdid : old.id = oldId := by
        simpa using List.find?_some hfind₀
      have hmapfind :
          findItem ((s.map (fun it =>
              if it.id = oldId then
                { it with superseded_by_id := some (nextId s) }
              else it)) ++
            [⟨nextId s, f.workflow_key, f.kind, f.title, f.body_mdc, none⟩])
            oldId =
          some { old with superseded_by_id := some (nextId s) } := by
        unfold findItem
        rw [List.find?_append, List.find?_map]
        have hcomp :
            ((fun it : LibraryItem => it.id == oldId) ∘
              (fun it : LibraryItem =>
                if it.id = oldId then
                  { it with superseded_by_id := some (nextId s) }
                else it)) =
            (fun it : LibraryItem => it.id == oldId) := by
          funext it
          by_cases hi : it.id = oldId <;> simp [Function.comp, hi]
        rw [hcomp, hfind₀]
        simp [holdid]
      apply supersedeItem_conflict_of_ptr _ _ _ _ hmapfind
      simp

theorem applyOp_supersede_error (s : List LibraryItem) (oldId : Nat)
    (g : LibraryItemFields) (e : LibStoreError)
    (h : supersedeItem s oldId g = .error e) :
    applyOp s (.supersede oldId g) = s := by
  simp [applyOp, h]

/-- C1: in every store reachable by create and supersede operations, the
chain of every item ends in a current head with null superseded_by_id; any two null
members whose chains share a head are the same item, so each chain has exactly
one current member; a supersede that finds the old pointer already non-null
fails with ConflictError, never overwriting; after one supersede of an item
succeeds, every later supersede of the same item fails with ConflictError, so
of concurrent supersede calls at most one wins; and a failed supersede leaves
the store unchanged. -/
theorem c1_chain_head_unique_and_race :
    (∀ ops : List LibOp, ∀ x ∈ applyOps ops, ∃ hd,
        chainHead (applyOps ops) x = some hd ∧ hd ∈ applyOps ops ∧
          hd.superseded_by_id = none) ∧
    (∀ (ops : List LibOp) (x y₁ y₂ : LibraryItem),
        chainHead (applyOps ops) y₁ = chainHead (applyOps ops) x →
        chainHead (applyOps ops) y₂ = chainHead (applyOps ops) x →
        y₁.superseded_by_id = none → y₂.superseded_by_id = none → y₁ = y₂) ∧
    (∀ (s : List LibraryItem) (oldId : Nat) (f : LibraryItemFields)
        (old : LibraryItem), findItem s oldId = some old →
        old.superseded_by_id ≠ none →
        supersedeItem s oldId f = .error .conflict) ∧
    (∀ (s : List LibraryItem) (oldId : Nat) (f g : LibraryItemFields)
        (s₂ : List LibraryItem), supersedeItem s oldId f = .ok s₂ →
        supersedeItem s₂ oldId g = .error .conflict) ∧
    (∀ (s : List LibraryItem) (oldId : Nat) (g : LibraryItemFields)
        (e : LibStoreError), supersedeItem s oldId g = .error e →
        applyOp s (.supersede oldId g) = s) := by
  refine ⟨?_, ?_, ?_, ?_, ?_⟩
  · intro ops x hx
    exact chainHead_exists (applyOps ops) (ptrOk_applyOps ops) x hx
  · intro ops x y₁ y₂ h₁ h₂ hn₁ hn₂
    rw [chainHead_of_none _ _ hn₁] at h₁
    rw [chainHead_of_none _ _ hn₂] at h₂
    rw [← h₂] at h₁
    exact Option.some.inj h₁
  · intro s oldId f old hfind hptr
    exact supersedeItem_conflict_of_ptr s oldId f old hfind hptr
  · intro s oldId f g s₂ hok
    exact supersedeItem_after_ok s oldId f g s₂ hok
  · intro s oldId g e h
    exact applyOp_supersede_error s oldId g e h

/-- C1 witness: after creating item 1 and superseding it by item 2, the chain
of the superseded item still has a current head, and a second supersede of
item 1 fails with ConflictError. -/
theorem c1_witness :
    (∃ hd,
      chainHead
          (applyOps [LibOp.create ⟨['k'], .recipe, ['t'], ['b']⟩,
            LibOp.supersede 1 ⟨['k'], .recipe, ['t'], ['b']⟩])
          ⟨1, ['k'], .recipe, ['t'], ['b'], some 2⟩ = some hd ∧
      hd ∈ applyOps [LibOp.create ⟨['k'], .recipe, ['t'], ['b']⟩,
            LibOp.supersede 1 ⟨['k'], .recipe, ['t'], ['b']⟩] ∧
      hd.superseded_by_id = none) ∧
    supersedeItem
        [⟨1, ['k'], .recipe, ['t'], ['b'], some 2⟩,
         ⟨2, ['k'], .recipe, ['t'], ['b'], none⟩] 1
        ⟨['k'], .recipe, ['t'], ['b']⟩ = .error .conflict :=
  ⟨c1_chain_head_unique_and_race.1
      [LibOp.create ⟨['k'], .recipe, ['t'], ['b']⟩,
        LibOp.supersede 1 ⟨['k'], .recipe, ['t'], ['b']⟩]
      ⟨1, ['k'], .recipe, ['t'], ['b'], some 2⟩ (by decide),
   c1_chain_head_unique_and_race.2.2.2.1
      [⟨1, ['k'], .recipe, ['t'], ['b'], none⟩] 1
      ⟨['k'], .recipe, ['t'], ['b']⟩ ⟨['k'], .recipe, ['t'], ['b']⟩
      [⟨1, ['k'], .recipe, ['t'], ['b'], some 2⟩,
       ⟨2, ['k'], .recipe, ['t'], ['b'], none⟩] rfl⟩

/-- Whether a needle occurs as a contiguous substring of the haystack. -/
def isSubstrOf (needle : JStr) : JStr → Bool
  | [] => needle.isEmpty
  | c :: rest => needle.isPrefixOf (c :: rest) || isSubstrOf needle rest

/-- Modelled from the spec: the workflow_key filter of the library list
matches on equality when present. -/
def wkMatches (wk : Option JStr) (it : LibraryItem) : Bool :=
  match wk with
  | none => true
  | some k => it.workflow_key == k

/-- Modelled from the spec: the kind filter matches on equality when
present. -/
def kindMatches (kd : Option LibraryItemKind) (it : LibraryItem) : Bool :=
  match kd with
  | none => true
  | some k => it.kind == k

/-- Modelled from the spec: the q filter matches case-insensitively as a
substring of title or body. -/
def qMatches (q : Option JStr) (it : LibraryItem) : Bool :=
  match q with
  | none => true
  | some qs =>
    isSubstrOf (toLowerStr qs) (toLowerStr it.title) ||
    isSubstrOf (toLowerStr qs) (toLowerStr it.body_mdc)

/-- The conjunction of the filters other than current_only. -/
def matchesLibraryFilters (wk : Option JStr) (kd : Option LibraryItemKind)
    (q : Option JStr) (it : LibraryItem) : Bool :=
  wkMatches wk it && kindMatches kd it && qMatches q it

/-- Modelled from the spec: list(filters, current_only, skip, limit) of the
Library Store, which is not part of this frontend-only repository: keep the
items matching the filters, excluding items with non-null superseded_by_id
when current_only is set, then page with skip and limit. -/
def listLibraryItems (s : List LibraryItem) (wk : Option JStr)
    (kd : Option LibraryItemKind) (q : Option JStr) (currentOnly : Bool)
    (skip limit : Nat) : List LibraryItem :=
  ((s.filter (fun it =>
      matchesLibraryFilters wk kd q it &&
      (!currentOnly || it.superseded_by_id.isNone))).drop skip).take limit

/-- C5: with current_only set and the whole page requested, the returned set
is exactly the stored items that match the other filters and have a null
superseded_by_id: every returned item is current, and every current stored
item matching the other filters is returned. -/
theorem c5_current_only_exact (s : List LibraryItem) (wk : Option JStr)
    (kd : Option LibraryItemKind) (q : Option JStr) (x : LibraryItem) :
    x ∈ listLibraryItems s wk kd q true 0 s.length ↔
      x ∈ s ∧ matchesLibraryFilters wk kd q x = true ∧
        x.superseded_by_id = none := by
  unfold listLibraryItems
  rw [List.drop_zero,
    List.take_of_length_le (le_trans (List.length_filter_le _ _) le_rfl)]
  simp [List.mem_filter, Option.isNone_iff_eq_none, and_assoc]
